import Mathlib

/-!
Verification of the CSS theme combiner (`css_combine.py`).

The development shallowly embeds the data model, the character-level CSS
parser state machine, the sheet set-algebra (intersection, difference,
strict and tolerant union), the theme combiner and the serializers, and
proves the specified properties about them.

Python exceptions are modelled with `Option` (`none` = the call raised).
-/

/-- CSS selector, e.g. `.something`. -/
structure CssSelector where
  name : String
deriving DecidableEq

/-- CSS property: a name/value pair, e.g. `background-color` / `#FFFFFF`. -/
structure CssProperty where
  name : String
  value : String
deriving DecidableEq

/-- CSS rule: an ordered selector list paired with an ordered property list. -/
structure CssRule where
  selectors : List CssSelector
  properties : List CssProperty
deriving DecidableEq

/-- CSS data: an ordered sequence of rules.  (`CssSheet` in the source adds
only methods, no further fields, so both are modelled by this one type.) -/
structure CssData where
  rules : List CssRule
deriving DecidableEq

/-- Embeds `CssData.has_property`: scans every rule whose selector list equals
`selectors` and every property of such rules; true on a name match, and when
`compareValue` is set also a value match. -/
def CssData.hasProperty (d : CssData) (selectors : List CssSelector)
    (p : CssProperty) (compareValue : Bool) : Bool :=
  d.rules.any fun rule =>
    rule.selectors == selectors &&
      rule.properties.any fun thisProp =>
        thisProp.name == p.name && (!compareValue || thisProp.value == p.value)

/-- Helper for `CssData.appendProperty`: append the property to the first rule
with a matching selector list, else add a new rule at the end. -/
def appendPropertyAux (rules : List CssRule) (selectors : List CssSelector)
    (p : CssProperty) : List CssRule :=
  match rules with
  | [] => [⟨selectors, [p]⟩]
  | r :: rest =>
    if r.selectors == selectors then ⟨r.selectors, r.properties ++ [p]⟩ :: rest
    else r :: appendPropertyAux rest selectors p

/-- Embeds `CssData.append_property`. -/
def CssData.appendProperty (d : CssData) (selectors : List CssSelector)
    (p : CssProperty) : CssData :=
  ⟨appendPropertyAux d.rules selectors p⟩

/-- All (selector-list, property) pairs contributed by one rule. -/
def rulePairs (r : CssRule) : List (List CssSelector × CssProperty) :=
  r.properties.map fun p => (r.selectors, p)

/-- All (selector-list, property) pairs of a sheet, in the iteration order of
the source's nested `for rule in self.rules: for prop in rule.properties`
loops. -/
def pairsList (d : CssData) : List (List CssSelector × CssProperty) :=
  (d.rules.map rulePairs).flatten

/-- Projection of a (selector-list, property) pair to its property name. -/
def nameProj (sp : List CssSelector × CssProperty) :
    List CssSelector × String :=
  (sp.1, sp.2.name)

/-- All (selector-list, property-name) pairs of a sheet. -/
def namePairs (d : CssData) : List (List CssSelector × String) :=
  (pairsList d).map nameProj

/-- Membership of a (selector-list, property) pair in a sheet. -/
def pairMem (d : CssData) (s : List CssSelector) (p : CssProperty) : Prop :=
  (s, p) ∈ pairsList d

instance (d : CssData) (s : List CssSelector) (p : CssProperty) :
    Decidable (pairMem d s p) := by
  unfold pairMem; infer_instance

/-- Whether some (selector-list, property-name) pair occurs in both sheets. -/
def sharedNamePair (A B : CssData) : Bool :=
  (namePairs A).any fun q => decide (q ∈ namePairs B)

/-- Embeds `CssSheet.from_sheet`: copy a sheet, optionally overwriting every
property value with a fixed literal. -/
def CssData.fromSheet (sheet : CssData) (overwriteValues : Option String) :
    CssData :=
  match overwriteValues with
  | none => ⟨sheet.rules⟩
  | some v =>
    ⟨sheet.rules.map fun r => ⟨r.selectors, r.properties.map fun p => ⟨p.name, v⟩⟩⟩

/-- Embeds `CssSheet.__and__` (intersection): keep every pair of `A` that `B`
has with equal value. -/
def CssData.and (A B : CssData) : CssData :=
  A.rules.foldl
    (fun newSheet rule =>
      rule.properties.foldl
        (fun ns p =>
          if B.hasProperty rule.selectors p true then
            ns.appendProperty rule.selectors p
          else ns)
        newSheet)
    ⟨[]⟩

/-- Embeds `CssSheet.__sub__` (difference): keep every pair of `A` that `B`
does not have with equal value. -/
def CssData.sub (A B : CssData) : CssData :=
  A.rules.foldl
    (fun newSheet rule =>
      rule.properties.foldl
        (fun ns p =>
          if B.hasProperty rule.selectors p true then ns
          else ns.appendProperty rule.selectors p)
        newSheet)
    ⟨[]⟩

/-- Loop body of `CssSheet._or_add`: fold `A`'s pairs (in source iteration
order) into the evolving copy of `B`; on a name-only conflict with the
evolving sheet either skip (`ow = true`) or raise (`none`). -/
def orAddAux (ow : Bool) : CssData →
    List (List CssSelector × CssProperty) → Option CssData
  | ns, [] => some ns
  | ns, sp :: rest =>
    if ns.hasProperty sp.1 sp.2 false then
      if ow then orAddAux ow ns rest else none
    else orAddAux ow (ns.appendProperty sp.1 sp.2) rest

/-- Embeds `CssSheet._or_add`: start from a copy of `other` and fold in
`self`'s pairs. -/
def CssData.orAdd (A B : CssData) (overwriteWithOther : Bool) : Option CssData :=
  orAddAux overwriteWithOther (CssData.fromSheet B none) (pairsList A)

/-- Embeds `CssSheet.__or__` (strict union, raises on conflict). -/
def CssData.or (A B : CssData) : Option CssData :=
  A.orAdd B false

/-- Embeds `CssSheet.__add__` (tolerant union, `other` wins on conflict). -/
def CssData.add (A B : CssData) : Option CssData :=
  A.orAdd B true

/-- Embeds `combine_themes`. -/
def combineThemes (sheetInL sheetInD : CssData) :
    Option (CssData × CssData × CssData) :=
  let sheetInBoth := sheetInL.and sheetInD
  let sheetUniqueL := sheetInL.sub sheetInBoth
  let sheetUniqueD := sheetInD.sub sheetInBoth
  let sheetUnsetL := CssData.fromSheet sheetUniqueL (some "unset")
  let sheetUnsetD := CssData.fromSheet sheetUniqueD (some "unset")
  match sheetUnsetL.add sheetUnsetD with
  | none => none
  | some sheetUnsetBoth =>
    match sheetUnsetBoth.add sheetUniqueL with
    | none => none
    | some sheetVarsL =>
      match sheetUnsetBoth.add sheetUniqueD with
      | none => none
      | some sheetVarsD =>
        match sheetInBoth.or sheetUnsetBoth with
        | none => none
        | some combined => some (sheetVarsL, sheetVarsD, combined)

/-- Python `str.lstrip(".")`: drop every leading `.`. -/
def lstripDots (s : String) : String :=
  String.mk (s.data.dropWhile fun c => c == '.')

/-- Python f-string rendering of an optional string: `None` renders as the
four-character text `"None"`. -/
def pyStr : Option String → String
  | none => "None"
  | some s => s

/-- Embeds `CssSheet.selectors_name_combined`: join selector names with `-`,
stripping each selector's leading dots. -/
def selectorsNameCombined (selectors : List CssSelector) : String :=
  String.intercalate "-" (selectors.map fun s => lstripDots s.name)

/-- Embeds `CssSheet.var_name`.  The prefix is optional because the source's
caller can pass `None`, which the f-string renders as `"None"`. -/
def varName (pfx : Option String) (selectorsName propName : String)
    (inVar : Bool) : String :=
  let ret := "--" ++ pyStr pfx ++ "-" ++ selectorsName ++ "-" ++ propName
  if inVar then "var(" ++ ret ++ ")" else ret

/-- Embeds `CssSheet.output_sheet`.  `none` models the `ValueError` raise;
note the source guards on `template_values is not None`, not `as_template`. -/
def outputSheet (d : CssData) (pfx : Option String) (asTemplate : Bool)
    (templateValues : Option (List String)) : Option String :=
  if templateValues.isSome && pfx.isNone then none
  else
    some (String.join (d.rules.map fun rule =>
      let selectorsName := selectorsNameCombined rule.selectors
      let p2v : CssProperty → String := fun p =>
        if asTemplate then
          match templateValues with
          | none => varName pfx selectorsName p.name true
          | some tvs =>
            if p.value ∈ tvs then varName pfx selectorsName p.name true
            else p.value
        else p.value
      String.intercalate " " (rule.selectors.map fun sel => sel.name) ++
        " \x7b " ++
        String.intercalate "; "
          (rule.properties.map fun p => p.name ++ ": " ++ p2v p) ++
        " \x7d\n"))

/-- Embeds `CssSheet.output_vars`.  `none` models the `ValueError` raise when
no prefix is supplied. -/
def outputVars (d : CssData) (pfx : Option String)
    (prefersColorScheme : Option String) : Option String :=
  match pfx with
  | none => none
  | some pre =>
    let header : String :=
      match prefersColorScheme with
      | none => ":root \x7b\n"
      | some scheme =>
        "@media (prefers-color-scheme: " ++ scheme ++ ") \x7b\n" ++
          "  :root \x7b\n"
    let indent : String :=
      match prefersColorScheme with
      | none => "  "
      | some _ => "    "
    let footer : String :=
      match prefersColorScheme with
      | none => "\x7d\n"
      | some _ => "  \x7d\n" ++ "\x7d\n"
    some (header ++
      String.join (d.rules.map fun rule =>
        String.join (rule.properties.map fun p =>
          indent ++
            varName (some pre) (selectorsNameCombined rule.selectors) p.name
              false ++
            ": " ++ p.value ++ ";\n")) ++
      footer)

/-- Modelled from the spec: the exact custom-property naming scheme of §6,
`--{prefix}-{selector names joined by '-', each selector's leading '.'
stripped}-{property-name}`, written directly from the spec's words for
comparison with the source's `var_name`/`selectors_name_combined`. -/
def specCustomPropertyName (pfx : String) (sels : List CssSelector)
    (propName : String) : String :=
  "--" ++ pfx ++ "-" ++
    String.intercalate "-" (sels.map fun s => lstripDots s.name) ++
    "-" ++ propName

/-- States of the `CssParser` state machine. -/
inductive CssParserState where
  | ROOT
  | ROOT_COMMENT
  | SELECTOR
  | BLOCK
  | BLOCK_COMMENT
  | BLOCK_PROP_NAME
  | BLOCK_GAP
  | BLOCK_PROP_VALUE
deriving DecidableEq

/-- Parser configuration: the mutable fields of the Python `CssParser`. -/
structure CssParser where
  state : CssParserState
  newSheet : CssData
  selectorName : List Char
  selectors : List CssSelector
  properties : List CssProperty
  propName : List Char
  propValue : List Char
deriving DecidableEq

/-- Python whitespace characters stripped by `str.rstrip()` (ASCII range). -/
def pyIsSpace (c : Char) : Bool :=
  c == ' ' || c == '\t' || c == '\n' || c == '\r' || c == '\x0b' || c == '\x0c'

/-- Python `str.rstrip()` on a character buffer: drop trailing whitespace. -/
def rstrip (l : List Char) : List Char :=
  (l.reverse.dropWhile pyIsSpace).reverse

/-- Embeds `CssParser._reset_everything` as the initial configuration. -/
def initParser : CssParser :=
  ⟨CssParserState.ROOT, ⟨[]⟩, [], [], [], [], []⟩

/-- Embeds `CssParser.css_selector_name_grow`. -/
def CssParser.cssSelectorNameGrow (cfg : CssParser) (c : Char) : CssParser :=
  { cfg with selectorName := cfg.selectorName ++ [c] }

/-- Embeds `CssParser.css_selector_finish`. -/
def CssParser.cssSelectorFinish (cfg : CssParser) : CssParser :=
  { cfg with
    selectors := cfg.selectors ++ [⟨String.mk cfg.selectorName⟩]
    selectorName := [] }

/-- Embeds `CssParser.css_property_name_grow`. -/
def CssParser.cssPropertyNameGrow (cfg : CssParser) (c : Char) : CssParser :=
  { cfg with propName := cfg.propName ++ [c] }

/-- Embeds `CssParser.css_property_value_grow`. -/
def CssParser.cssPropertyValueGrow (cfg : CssParser) (c : Char) : CssParser :=
  { cfg with propValue := cfg.propValue ++ [c] }

/-- Embeds `CssParser.css_property_reset`. -/
def CssParser.cssPropertyReset (cfg : CssParser) : CssParser :=
  { cfg with propName := [], propValue := [] }

/-- Embeds `CssParser.css_property_finish`: append the pending property if its
accumulated name is nonempty (value gets trailing whitespace stripped), then
reset the buffers. -/
def CssParser.cssPropertyFinish (cfg : CssParser) : CssParser :=
  { cfg with
    properties :=
      if cfg.propName = [] then cfg.properties
      else cfg.properties ++
        [⟨String.mk cfg.propName, String.mk (rstrip cfg.propValue)⟩]
    propName := []
    propValue := [] }

/-- Embeds `CssParser.css_rule_finish`. -/
def CssParser.cssRuleFinish (cfg : CssParser) : CssParser :=
  { cfg with
    newSheet := ⟨cfg.newSheet.rules ++ [⟨cfg.selectors, cfg.properties⟩]⟩
    selectors := []
    properties := [] }

/-- One step of the parse loop for current character `c` and lookahead `cn`.
Returns the new configuration and whether the lookahead character was
consumed (the `next(it)` skip at a comment end). -/
def applyStep (cfg : CssParser) (c : Char) (cn : Option Char) :
    CssParser × Bool :=
  match cfg.state with
  | CssParserState.ROOT =>
    if c = ' ' ∨ c = '\n' then (cfg, false)
    else if c = '/' ∧ cn = some '*' then
      ({ cfg with state := CssParserState.ROOT_COMMENT }, false)
    else if c = '{' then ({ cfg with state := CssParserState.BLOCK }, false)
    else ({ cfg.cssSelectorNameGrow c with state := CssParserState.SELECTOR },
      false)
  | CssParserState.ROOT_COMMENT =>
    if c = '*' ∧ cn = some '/' then
      ({ cfg with state := CssParserState.ROOT }, true)
    else (cfg, false)
  | CssParserState.SELECTOR =>
    if c = ' ' ∨ c = '\n' then
      ({ cfg.cssSelectorFinish with state := CssParserState.ROOT }, false)
    else (cfg.cssSelectorNameGrow c, false)
  | CssParserState.BLOCK =>
    if c = ' ' ∨ c = '\n' then (cfg, false)
    else if c = '/' ∧ cn = some '*' then
      ({ cfg with state := CssParserState.BLOCK_COMMENT }, false)
    else if c = '}' then
      ({ cfg.cssRuleFinish.cssPropertyReset with
          state := CssParserState.ROOT }, false)
    else
      ({ cfg.cssPropertyNameGrow c with
          state := CssParserState.BLOCK_PROP_NAME }, false)
  | CssParserState.BLOCK_COMMENT =>
    if c = '*' ∧ cn = some '/' then
      ({ cfg with state := CssParserState.BLOCK }, true)
    else (cfg, false)
  | CssParserState.BLOCK_PROP_NAME =>
    if c = ':' then ({ cfg with state := CssParserState.BLOCK_GAP }, false)
    else (cfg.cssPropertyNameGrow c, false)
  | CssParserState.BLOCK_GAP =>
    if c = ' ' ∨ c = '\n' then (cfg, false)
    else
      ({ cfg.cssPropertyValueGrow c with
          state := CssParserState.BLOCK_PROP_VALUE }, false)
  | CssParserState.BLOCK_PROP_VALUE =>
    if c = ';' then
      ({ cfg.cssPropertyFinish with state := CssParserState.BLOCK }, false)
    else if c = '}' then
      ({ cfg.cssPropertyFinish.cssRuleFinish with
          state := CssParserState.ROOT }, false)
    else (cfg.cssPropertyValueGrow c, false)

/-- Run the parse loop over the remaining characters, with one-character
lookahead exactly as the source's peeked iterator. -/
def processChars : CssParser → List Char → CssParser
  | cfg, [] => cfg
  | cfg, [c] => (applyStep cfg c none).1
  | cfg, c :: cn :: rest =>
    let step := applyStep cfg c (some cn)
    if step.2 then processChars step.1 rest
    else processChars step.1 (cn :: rest)

/-- Embeds `CssParser.parse`: run the state machine from a fresh configuration
and return the accumulated sheet (pending buffers are dropped). -/
def CssParser.parse (cssStr : String) : CssData :=
  (processChars initParser cssStr.data).newSheet

/-- Bool form of "no property in the sheet has an empty name". -/
def propNamesNonempty (d : CssData) : Bool :=
  d.rules.all fun r => r.properties.all fun p => !(p.name == "")

theorem cssProperty_eq_iff (q p : CssProperty) :
    q = p ↔ q.name = p.name ∧ q.value = p.value := by
  cases q; cases p; simp

theorem pairMem_iff (d : CssData) (s : List CssSelector) (p : CssProperty) :
    pairMem d s p ↔ ∃ r, r ∈ d.rules ∧ r.selectors = s ∧ p ∈ r.properties := by
  unfold pairMem pairsList rulePairs
  simp only [List.mem_flatten, List.mem_map]
  constructor
  · rintro ⟨l, ⟨r, hr, rfl⟩, hmem⟩
    rcases List.mem_map.mp hmem with ⟨q, hq, hqe⟩
    rcases Prod.mk.injEq .. ▸ hqe with ⟨hsel, hprop⟩
    exact ⟨r, hr, hsel, hprop ▸ hq⟩
  · rintro ⟨r, hr, hsel, hp⟩
    exact ⟨r.properties.map fun q => (r.selectors, q), ⟨r, hr, rfl⟩,
      List.mem_map.mpr ⟨p, hp, by rw [hsel]⟩⟩

theorem namePairs_mem_iff (d : CssData) (s : List CssSelector) (n : String) :
    (s, n) ∈ namePairs d ↔ ∃ p, pairMem d s p ∧ p.name = n := by
  unfold namePairs
  constructor
  · intro h
    rcases List.mem_map.mp h with ⟨⟨s', p⟩, hmem, heq⟩
    rcases Prod.mk.injEq .. ▸ heq with ⟨hs, hn⟩
    exact ⟨p, hs ▸ hmem, hn⟩
  · rintro ⟨p, hp, hn⟩
    exact List.mem_map.mpr ⟨(s, p), hp, by simp [nameProj, hn]⟩

theorem hasProperty_true_iff (d : CssData) (s : List CssSelector)
    (p : CssProperty) : d.hasProperty s p true = true ↔ pairMem d s p := by
  unfold CssData.hasProperty
  rw [pairMem_iff]
  simp only [List.any_eq_true, Bool.and_eq_true, beq_iff_eq, Bool.not_true,
    Bool.false_or]
  constructor
  · rintro ⟨r, hr, hsel, q, hq, hname, hval⟩
    exact ⟨r, hr, hsel, (cssProperty_eq_iff q p).mpr ⟨hname, hval⟩ ▸ hq⟩
  · rintro ⟨r, hr, hsel, hp⟩
    exact ⟨r, hr, hsel, p, hp, rfl, rfl⟩

theorem hasProperty_false_iff (d : CssData) (s : List CssSelector)
    (p : CssProperty) :
    d.hasProperty s p false = true ↔ (s, p.name) ∈ namePairs d := by
  unfold CssData.hasProperty
  rw [namePairs_mem_iff]
  simp only [List.any_eq_true, Bool.and_eq_true, beq_iff_eq, Bool.not_false,
    Bool.true_or, and_true]
  constructor
  · rintro ⟨r, hr, hsel, q, hq, hname⟩
    exact ⟨q, (pairMem_iff ..).mpr ⟨r, hr, hsel, hq⟩, hname⟩
  · rintro ⟨q, hq, hname⟩
    rcases (pairMem_iff ..).mp hq with ⟨r, hr, hsel, hmem⟩
    exact ⟨r, hr, hsel, q, hmem, hname⟩

theorem appendAux_pairs_perm (rules : List CssRule) (s : List CssSelector)
    (p : CssProperty) :
    ((appendPropertyAux rules s p).map rulePairs).flatten.Perm
      ((rules.map rulePairs).flatten ++ [(s, p)]) := by
  induction rules with
  | nil => simp [appendPropertyAux, rulePairs]
  | cons r rest ih =>
    unfold appendPropertyAux
    by_cases h : r.selectors = s
    · rw [if_pos (beq_iff_eq .. |>.mpr h)]
      simp only [List.map_cons, List.flatten_cons, rulePairs, List.map_append,
        List.map_singleton, h]
      rw [List.append_assoc, List.append_assoc]
      exact List.Perm.append_left _ List.perm_append_comm
    · rw [if_neg (by simpa using h)]
      simp only [List.map_cons, List.flatten_cons, List.append_assoc]
      exact List.Perm.append_left _ ih

theorem appendProperty_pairs_perm (d : CssData) (s : List CssSelector)
    (p : CssProperty) :
    (pairsList (d.appendProperty s p)).Perm (pairsList d ++ [(s, p)]) :=
  appendAux_pairs_perm d.rules s p

theorem appendProperty_pairMem (d : CssData) (s : List CssSelector)
    (p : CssProperty) (s' : List CssSelector) (p' : CssProperty) :
    pairMem (d.appendProperty s p) s' p' ↔
      pairMem d s' p' ∨ (s' = s ∧ p' = p) := by
  unfold pairMem
  rw [(appendProperty_pairs_perm d s p).mem_iff]
  simp [Prod.ext_iff]

theorem appendProperty_namePairs_perm (d : CssData) (s : List CssSelector)
    (p : CssProperty) :
    (namePairs (d.appendProperty s p)).Perm (namePairs d ++ [(s, p.name)]) := by
  have h := (appendProperty_pairs_perm d s p).map nameProj
  simpa [namePairs, nameProj] using h

theorem appendProperty_nameMem (d : CssData) (s : List CssSelector)
    (p : CssProperty) (x : List CssSelector × String) :
    x ∈ namePairs (d.appendProperty s p) ↔
      x ∈ namePairs d ∨ x = (s, p.name) := by
  rw [(appendProperty_namePairs_perm d s p).mem_iff]
  simp

theorem filterFold_pairs_perm (cond : List CssSelector × CssProperty → Bool) :
    ∀ (ps : List (List CssSelector × CssProperty)) (init : CssData),
    (pairsList (ps.foldl
        (fun ns sp =>
          if cond sp then ns.appendProperty sp.1 sp.2 else ns) init)).Perm
      (pairsList init ++ ps.filter cond) := by
  intro ps
  induction ps with
  | nil => intro init; simp
  | cons sp rest ih =>
    intro init
    simp only [List.foldl_cons, List.filter_cons]
    by_cases h : cond sp
    · rw [if_pos h, if_pos h]
      refine (ih _).trans ?_
      have h2 : (pairsList (init.appendProperty sp.1 sp.2)).Perm
          (pairsList init ++ [sp]) := by
        simpa using appendProperty_pairs_perm init sp.1 sp.2
      refine ((h2.append_right (rest.filter cond)).trans ?_)
      rw [List.append_assoc]
      exact List.Perm.refl _
    · rw [if_neg h, if_neg h]
      exact ih init

theorem filterFold_namePairs_perm
    (cond : List CssSelector × CssProperty → Bool)
    (ps : List (List CssSelector × CssProperty)) (init : CssData) :
    (namePairs (ps.foldl
        (fun ns sp =>
          if cond sp then ns.appendProperty sp.1 sp.2 else ns) init)).Perm
      (namePairs init ++ (ps.filter cond).map nameProj) := by
  have h := (filterFold_pairs_perm cond ps init).map nameProj
  simpa [namePairs, List.map_append] using h

theorem filterFold_pairMem (cond : List CssSelector × CssProperty → Bool) :
    ∀ (ps : List (List CssSelector × CssProperty)) (init : CssData)
      (s : List CssSelector) (p : CssProperty),
    pairMem (ps.foldl
        (fun ns sp =>
          if cond sp then ns.appendProperty sp.1 sp.2 else ns) init) s p ↔
      pairMem init s p ∨ ((s, p) ∈ ps ∧ cond (s, p) = true) := by
  intro ps init s p
  have hperm := filterFold_pairs_perm cond ps init
  unfold pairMem
  rw [hperm.mem_iff, List.mem_append, List.mem_filter]

theorem and_eq_fold (A B : CssData) :
    A.and B = (pairsList A).foldl
      (fun ns sp =>
        if B.hasProperty sp.1 sp.2 true then ns.appendProperty sp.1 sp.2
        else ns) ⟨[]⟩ := by
  unfold CssData.and pairsList
  rw [List.foldl_flatten, List.foldl_map]
  congr 1
  funext ns r
  unfold rulePairs
  rw [List.foldl_map]

theorem sub_eq_fold (A B : CssData) :
    A.sub B = (pairsList A).foldl
      (fun ns sp =>
        if (!B.hasProperty sp.1 sp.2 true) then ns.appendProperty sp.1 sp.2
        else ns) ⟨[]⟩ := by
  unfold CssData.sub pairsList
  rw [List.foldl_flatten, List.foldl_map]
  congr 1
  funext ns r
  unfold rulePairs
  rw [List.foldl_map]
  congr 1
  funext ns2 p
  by_cases h : B.hasProperty r.selectors p true <;> simp [h]

theorem pairMem_empty (s : List CssSelector) (p : CssProperty) :
    ¬ pairMem ⟨[]⟩ s p := by
  simp [pairMem, pairsList]

theorem and_pairMem (A B : CssData) (s : List CssSelector) (p : CssProperty) :
    pairMem (A.and B) s p ↔
      pairMem A s p ∧ B.hasProperty s p true = true := by
  rw [and_eq_fold, filterFold_pairMem]
  simp only [pairMem_empty, false_or]
  exact Iff.rfl

theorem sub_pairMem (A B : CssData) (s : List CssSelector) (p : CssProperty) :
    pairMem (A.sub B) s p ↔
      pairMem A s p ∧ B.hasProperty s p true = false := by
  rw [sub_eq_fold, filterFold_pairMem]
  simp only [pairMem_empty, false_or, Bool.not_eq_true']
  exact Iff.rfl

theorem and_namePairs_nodup (A B : CssData) (hA : (namePairs A).Nodup) :
    (namePairs (A.and B)).Nodup := by
  rw [and_eq_fold]
  have hperm := filterFold_namePairs_perm
    (fun sp => B.hasProperty sp.1 sp.2 true) (pairsList A) ⟨[]⟩
  rw [hperm.nodup_iff]
  have hempty : namePairs ⟨[]⟩ = [] := by simp [namePairs, pairsList]
  rw [hempty, List.nil_append]
  have hsub : (((pairsList A).filter
      (fun sp => B.hasProperty sp.1 sp.2 true)).map nameProj).Sublist
      ((pairsList A).map nameProj) :=
    List.Sublist.map nameProj (List.filter_sublist _)
  exact hA.sublist hsub

theorem orAddAux_true_isSome (ps : List (List CssSelector × CssProperty)) :
    ∀ ns : CssData, (orAddAux true ns ps).isSome = true := by
  induction ps with
  | nil => intro ns; rfl
  | cons sp rest ih =>
    intro ns
    unfold orAddAux
    by_cases h : ns.hasProperty sp.1 sp.2 false
    · rw [if_pos h]
      simpa using ih ns
    · rw [if_neg h]
      exact ih _

theorem orAddAux_mono (ow : Bool)
    (ps : List (List CssSelector × CssProperty)) :
    ∀ (ns R : CssData), orAddAux ow ns ps = some R →
      ∀ s p, pairMem ns s p → pairMem R s p := by
  induction ps with
  | nil =>
    intro ns R h s p hm
    unfold orAddAux at h
    cases h
    exact hm
  | cons sp rest ih =>
    intro ns R h s p hm
    unfold orAddAux at h
    by_cases hc : ns.hasProperty sp.1 sp.2 false
    · rw [if_pos hc] at h
      cases ow with
      | false => cases h
      | true => exact ih ns R h s p hm
    · rw [if_neg hc] at h
      exact ih _ R h s p ((appendProperty_pairMem ns sp.1 sp.2 s p).mpr
        (Or.inl hm))

theorem orAddAux_nameMem_mono (ow : Bool)
    (ps : List (List CssSelector × CssProperty)) (ns R : CssData)
    (h : orAddAux ow ns ps = some R) (x : List CssSelector × String)
    (hx : x ∈ namePairs ns) : x ∈ namePairs R := by
  obtain ⟨s, n⟩ := x
  rcases (namePairs_mem_iff ns s n).mp hx with ⟨p, hp, hn⟩
  exact (namePairs_mem_iff R s n).mpr ⟨p, orAddAux_mono ow ps ns R h s p hp, hn⟩

theorem orAddAux_src (ow : Bool)
    (ps : List (List CssSelector × CssProperty)) :
    ∀ (ns R : CssData), orAddAux ow ns ps = some R →
      ∀ s p, pairMem R s p → pairMem ns s p ∨ (s, p) ∈ ps := by
  induction ps with
  | nil =>
    intro ns R h s p hm
    unfold orAddAux at h
    cases h
    exact Or.inl hm
  | cons sp rest ih =>
    obtain ⟨s0, p0⟩ := sp
    intro ns R h s p hm
    unfold orAddAux at h
    by_cases hc : ns.hasProperty (s0, p0).1 (s0, p0).2 false
    · rw [if_pos hc] at h
      cases ow with
      | false => cases h
      | true =>
        rcases ih ns R h s p hm with h1 | h2
        · exact Or.inl h1
        · exact Or.inr (List.mem_cons_of_mem _ h2)
    · rw [if_neg hc] at h
      rcases ih _ R h s p hm with h1 | h2
      · rcases (appendProperty_pairMem ns (s0, p0).1 (s0, p0).2 s p).mp h1
          with h3 | ⟨hs, hp⟩
        · exact Or.inl h3
        · exact Or.inr (by simp [hs, hp])
      · exact Or.inr (List.mem_cons_of_mem _ h2)

theorem orAddAux_names (ow : Bool)
    (ps : List (List CssSelector × CssProperty)) :
    ∀ (ns R : CssData), orAddAux ow ns ps = some R →
      ∀ sp ∈ ps, nameProj sp ∈ namePairs R := by
  induction ps with
  | nil =>
    intro ns R _ sp hsp
    cases hsp
  | cons sp0 rest ih =>
    obtain ⟨s0, p0⟩ := sp0
    intro ns R h sp hsp
    unfold orAddAux at h
    by_cases hc : ns.hasProperty (s0, p0).1 (s0, p0).2 false
    · rw [if_pos hc] at h
      cases ow with
      | false => cases h
      | true =>
        rcases List.mem_cons.mp hsp with rfl | hsp'
        · exact orAddAux_nameMem_mono true rest ns R h _
            ((hasProperty_false_iff ns s0 p0).mp hc)
        · exact ih ns R h sp hsp'
    · rw [if_neg hc] at h
      rcases List.mem_cons.mp hsp with rfl | hsp'
      · exact orAddAux_nameMem_mono ow rest _ R h _
          ((appendProperty_nameMem ns s0 p0 _).mpr (Or.inr rfl))
      · exact ih _ R h sp hsp'

theorem orAddAux_true_preserve
    (ps : List (List CssSelector × CssProperty)) :
    ∀ (ns R : CssData), orAddAux true ns ps = some R →
      ∀ s n, (s, n) ∈ namePairs ns →
        ∀ v, (pairMem R s ⟨n, v⟩ ↔ pairMem ns s ⟨n, v⟩) := by
  induction ps with
  | nil =>
    intro ns R h s n _ v
    unfold orAddAux at h
    cases h
    exact Iff.rfl
  | cons sp0 rest ih =>
    obtain ⟨s0, p0⟩ := sp0
    intro ns R h s n hn v
    unfold orAddAux at h
    by_cases hc : ns.hasProperty (s0, p0).1 (s0, p0).2 false
    · rw [if_pos hc] at h
      exact ih ns R h s n hn v
    · rw [if_neg hc] at h
      have hn' : (s, n) ∈ namePairs (ns.appendProperty s0 p0) :=
        (appendProperty_nameMem ns s0 p0 _).mpr (Or.inl hn)
      rw [ih _ R h s n hn' v]
      rw [appendProperty_pairMem]
      constructor
      · rintro (h1 | ⟨hs, hp⟩)
        · exact h1
        · refine absurd ((hasProperty_false_iff ns s0 p0).mpr ?_) hc
          have hs' : s = s0 := hs
          have hp' : CssProperty.mk n v = p0 := hp
          rw [← hs', ← hp']
          exact hn
      · exact Or.inl

theorem orAddAux_false_none_iff
    (ps : List (List CssSelector × CssProperty)) :
    ∀ ns : CssData, orAddAux false ns ps = none ↔
      ((∃ sp ∈ ps, nameProj sp ∈ namePairs ns) ∨
        ¬ (ps.map nameProj).Nodup) := by
  induction ps with
  | nil =>
    intro ns
    simp [orAddAux]
  | cons sp0 rest ih =>
    obtain ⟨s0, p0⟩ := sp0
    intro ns
    unfold orAddAux
    by_cases hc : ns.hasProperty (s0, p0).1 (s0, p0).2 false
    · rw [if_pos hc]
      constructor
      · intro _
        exact Or.inl ⟨(s0, p0), List.mem_cons_self _ _,
          (hasProperty_false_iff ns s0 p0).mp hc⟩
      · intro _
        simp
    · rw [if_neg hc]
      rw [ih (ns.appendProperty (s0, p0).1 (s0, p0).2)]
      simp only [List.map_cons, List.nodup_cons]
      constructor
      · rintro (⟨sp, hsp, hmem⟩ | hnd)
        · rcases (appendProperty_nameMem ns s0 p0 (nameProj sp)).mp hmem
            with h1 | h2
          · exact Or.inl ⟨sp, List.mem_cons_of_mem _ hsp, h1⟩
          · refine Or.inr fun hand => ?_
            exact hand.1 (List.mem_map.mpr ⟨sp, hsp, h2⟩)
        · exact Or.inr fun hand => hnd hand.2
      · rintro (⟨sp, hsp, hmem⟩ | hnd)
        · rcases List.mem_cons.mp hsp with rfl | hsp'
          · exact absurd ((hasProperty_false_iff ns s0 p0).mpr hmem) hc
          · exact Or.inl ⟨sp, hsp',
              (appendProperty_nameMem ns s0 p0 _).mpr (Or.inl hmem)⟩
        · by_cases hin : nameProj (s0, p0) ∈ rest.map nameProj
          · rcases List.mem_map.mp hin with ⟨sp, hsp, hspe⟩
            exact Or.inl ⟨sp, hsp,
              (appendProperty_nameMem ns s0 p0 _).mpr (Or.inr hspe)⟩
          · exact Or.inr fun h2 => hnd ⟨hin, h2⟩

theorem fromSheet_none (d : CssData) : CssData.fromSheet d none = d := rfl

theorem fromSheet_some_pairs (d : CssData) (v : String) :
    pairsList (CssData.fromSheet d (some v)) =
      (pairsList d).map fun sp => (sp.1, ⟨sp.2.name, v⟩) := by
  unfold CssData.fromSheet pairsList
  rw [List.map_flatten]
  simp only [List.map_map]
  congr 1
  congr 1
  funext r
  simp [rulePairs, List.map_map, Function.comp]

theorem fromSheet_some_namePairs (d : CssData) (v : String) :
    namePairs (CssData.fromSheet d (some v)) = namePairs d := by
  unfold namePairs
  rw [fromSheet_some_pairs, List.map_map]
  congr 1

theorem or_none_iff (A B : CssData) :
    A.or B = none ↔
      ((∃ q ∈ namePairs A, q ∈ namePairs B) ∨ ¬ (namePairs A).Nodup) := by
  unfold CssData.or CssData.orAdd
  rw [fromSheet_none, orAddAux_false_none_iff]
  constructor
  · rintro (⟨sp, hsp, hmem⟩ | hnd)
    · exact Or.inl ⟨nameProj sp, List.mem_map.mpr ⟨sp, hsp, rfl⟩, hmem⟩
    · exact Or.inr hnd
  · rintro (⟨q, hq, hmem⟩ | hnd)
    · rcases List.mem_map.mp hq with ⟨sp, hsp, rfl⟩
      exact Or.inl ⟨sp, hsp, hmem⟩
    · exact Or.inr hnd

theorem sharedNamePair_iff (A B : CssData) :
    sharedNamePair A B = true ↔ ∃ q ∈ namePairs A, q ∈ namePairs B := by
  simp [sharedNamePair]

/-- Sheet with a duplicated property name under one selector list,
corresponding to the parse of `.a {c: r; c: b}`. -/
def dupSheetC2 : CssData := ⟨[⟨[⟨".a"⟩], [⟨"c", "r"⟩, ⟨"c", "b"⟩]⟩]⟩

/-- The empty sheet. -/
def emptySheetC2 : CssData := ⟨[]⟩

/-- Claim C2 counterexample: the strict union `A | B` raises for a sheet `A`
that repeats a property name under the same selector list and an empty `B`,
although no selector-list + property-name pair appears in both `A` and `B`;
so "raises iff some pair appears in both" is false as stated. -/
theorem strict_union_conflict_counterexample :
    CssData.or dupSheetC2 emptySheetC2 = none ∧
      sharedNamePair dupSheetC2 emptySheetC2 = false := by
  decide

/-- Claim C2 (amended): the strict union `A | B` raises a conflict error iff
some selector-list + property-name pair (value ignored) appears in both `A`
and `B`, or some selector-list + property-name pair occurs more than once
within `A` itself (the conflict check runs against the evolving result, so
`A`'s own duplicates also collide). -/
theorem strict_union_conflict_iff (A B : CssData) :
    A.or B = none ↔
      (sharedNamePair A B = true ∨ ¬ (namePairs A).Nodup) := by
  rw [or_none_iff, sharedNamePair_iff]

/-- Claim C4: a (selector-list, property) pair is in the intersection `A & B`
iff it is a pair of `A` that `B` also contains with equal name and value
(equivalently, `has_property` on `B` with value comparison is true). -/
theorem intersection_pairs_iff (A B : CssData) (s : List CssSelector)
    (p : CssProperty) :
    pairMem (CssData.and A B) s p ↔
      (pairMem A s p ∧ pairMem B s p ∧
        CssData.hasProperty B s p true = true) := by
  rw [and_pairMem]
  constructor
  · rintro ⟨ha, hb⟩
    exact ⟨ha, (hasProperty_true_iff B s p).mp hb, hb⟩
  · rintro ⟨ha, _, hb⟩
    exact ⟨ha, hb⟩

/-- Claim C5: no (selector-list, property) pair of `A − (A & B)` is found
value-equal in `B`. -/
theorem difference_of_intersection_disjoint (A B : CssData)
    (s : List CssSelector) (p : CssProperty)
    (h : pairMem (CssData.sub A (CssData.and A B)) s p) :
    CssData.hasProperty B s p true = false := by
  rcases (sub_pairMem A (CssData.and A B) s p).mp h with ⟨hA, hnand⟩
  cases hB : CssData.hasProperty B s p true with
  | false => rfl
  | true =>
    have hm : pairMem (CssData.and A B) s p :=
      (and_pairMem A B s p).mpr ⟨hA, hB⟩
    have ht : CssData.hasProperty (CssData.and A B) s p true = true :=
      (hasProperty_true_iff (CssData.and A B) s p).mpr hm
    rw [ht] at hnand
    cases hnand

/-- Sheets used as concrete inputs for the claim C5 witness. -/
def sheetC5A : CssData := ⟨[⟨[⟨".a"⟩], [⟨"color", "red"⟩]⟩]⟩

def sheetC5B : CssData := ⟨[⟨[⟨".a"⟩], [⟨"color", "blue"⟩]⟩]⟩

theorem difference_of_intersection_disjoint_witness :
    CssData.hasProperty sheetC5B [⟨".a"⟩] ⟨"color", "red"⟩ true = false :=
  difference_of_intersection_disjoint sheetC5A sheetC5B [⟨".a"⟩]
    ⟨"color", "red"⟩ (by decide)

/-- Claim C6: the tolerant union `A + B` never raises; at every selector-list
and property name that `B` knows, the result carries exactly `B`'s values
(`A`'s conflicting value is discarded); and every name-pair of `A` absent
from `B` reaches the result with a value taken from `A`. -/
theorem tolerant_union_never_raises (A B : CssData) :
    (CssData.add A B).isSome = true ∧
      ∀ R, CssData.add A B = some R →
        ((∀ s n v, (s, n) ∈ namePairs B →
            (pairMem R s ⟨n, v⟩ ↔ pairMem B s ⟨n, v⟩)) ∧
          (∀ s p, pairMem A s p → (s, p.name) ∉ namePairs B →
            ∃ q, q.name = p.name ∧ pairMem R s q ∧ pairMem A s q)) := by
  unfold CssData.add CssData.orAdd
  rw [fromSheet_none]
  refine ⟨orAddAux_true_isSome (pairsList A) B, ?_⟩
  intro R hR
  constructor
  · intro s n v hn
    exact orAddAux_true_preserve (pairsList A) B R hR s n hn v
  · intro s p hpA hnotB
    have hname : nameProj (s, p) ∈ namePairs R :=
      orAddAux_names true (pairsList A) B R hR (s, p) hpA
    rcases (namePairs_mem_iff R s p.name).mp hname with ⟨q, hqR, hqname⟩
    rcases orAddAux_src true (pairsList A) B R hR s q hqR with hqB | hqA
    · exact absurd ((namePairs_mem_iff B s p.name).mpr ⟨q, hqB, hqname⟩) hnotB
    · exact ⟨q, hqname, hqR, hqA⟩

/-- Sheets used as concrete inputs for the claim C6 witness, and the value of
their tolerant union. -/
def sheetC6A : CssData :=
  ⟨[⟨[⟨".a"⟩], [⟨"color", "red"⟩, ⟨"margin", "0"⟩]⟩]⟩

def sheetC6B : CssData := ⟨[⟨[⟨".a"⟩], [⟨"color", "blue"⟩]⟩]⟩

def sheetC6R : CssData :=
  ⟨[⟨[⟨".a"⟩], [⟨"color", "blue"⟩, ⟨"margin", "0"⟩]⟩]⟩

theorem tolerant_union_never_raises_witness :
    pairMem sheetC6R [⟨".a"⟩] ⟨"color", "blue"⟩ ∧
      ¬ pairMem sheetC6R [⟨".a"⟩] ⟨"color", "red"⟩ := by
  have h := (tolerant_union_never_raises sheetC6A sheetC6B).2 sheetC6R
    (by decide)
  refine ⟨(h.1 [⟨".a"⟩] "color" "blue" (by decide)).mpr (by decide), ?_⟩
  intro hc
  exact absurd ((h.1 [⟨".a"⟩] "color" "red" (by decide)).mp hc) (by decide)

theorem add_isSome (A B : CssData) : (A.add B).isSome = true := by
  unfold CssData.add CssData.orAdd
  rw [fromSheet_none]
  exact orAddAux_true_isSome (pairsList A) B

theorem add_some_namePairs_src (A B R : CssData) (h : A.add B = some R) :
    ∀ q ∈ namePairs R, q ∈ namePairs A ∨ q ∈ namePairs B := by
  unfold CssData.add CssData.orAdd at h
  rw [fromSheet_none] at h
  rintro ⟨s, n⟩ hq
  rcases (namePairs_mem_iff R s n).mp hq with ⟨p, hp, hn⟩
  rcases orAddAux_src true (pairsList A) B R h s p hp with h1 | h2
  · exact Or.inr ((namePairs_mem_iff B s n).mpr ⟨p, h1, hn⟩)
  · exact Or.inl ((namePairs_mem_iff A s n).mpr ⟨p, h2, hn⟩)

theorem nodup_nameProj_inj (X : CssData) (hX : (namePairs X).Nodup)
    (s : List CssSelector) (p q : CssProperty)
    (hp : pairMem X s p) (hq : pairMem X s q) (hname : p.name = q.name) :
    p = q := by
  have hinj := List.inj_on_of_nodup_map (f := nameProj) (l := pairsList X) hX
  have hne : nameProj (s, p) = nameProj (s, q) := by
    simp [nameProj, hname]
  have := hinj hp hq hne
  exact congrArg Prod.snd this

/-- Concrete parser inputs for the claim C1 counterexample: the light theme
repeats the declaration `c: r` under the selector `.a`. -/
def lightDupCss : String := ".a \x7bc: r; c: r\x7d"

def darkDupCss : String := ".a \x7bc: r\x7d"

/-- Claim C1 counterexample: for these two parsed light/dark sheets the
strict union in step 7 of `combine_themes` does raise a conflict error (the
shared part `Both` inherits the duplicated name and collides with itself),
so the step-7 union is not conflict-free for every pair of parsed sheets. -/
theorem step7_union_conflict_counterexample :
    combineThemes (CssParser.parse lightDupCss)
      (CssParser.parse darkDupCss) = none := by
  decide

/-- Claim C1 (amended): provided neither parsed sheet repeats a selector-list
+ property-name pair, the strict union in step 7 of `combine_themes` never
raises: `Both` is duplicate-free and shares no selector-list + property-name
pair with `UnsetBoth`, so the whole combination succeeds. -/
theorem step7_union_conflict_free (L D : CssData)
    (hL : (namePairs L).Nodup) (hD : (namePairs D).Nodup) :
    (combineThemes L D).isSome = true := by
  unfold combineThemes
  dsimp only
  obtain ⟨ub, hub⟩ := Option.isSome_iff_exists.mp (add_isSome
    (CssData.fromSheet (L.sub (L.and D)) (some "unset"))
    (CssData.fromSheet (D.sub (L.and D)) (some "unset")))
  rw [hub]
  dsimp only
  obtain ⟨vl, hvl⟩ := Option.isSome_iff_exists.mp
    (add_isSome ub (L.sub (L.and D)))
  rw [hvl]
  dsimp only
  obtain ⟨vd, hvd⟩ := Option.isSome_iff_exists.mp
    (add_isSome ub (D.sub (L.and D)))
  rw [hvd]
  dsimp only
  have hor : ¬ ((L.and D).or ub = none) := by
    rw [or_none_iff]
    refine not_or.mpr ⟨?_, not_not_intro (and_namePairs_nodup L D hL)⟩
    rintro ⟨q, hqboth, hqub⟩
    obtain ⟨s, n⟩ := q
    rcases (namePairs_mem_iff _ s n).mp hqboth with ⟨pb, hpb, hpbn⟩
    rcases (and_pairMem L D s pb).mp hpb with ⟨hpbL, hpbD⟩
    rcases add_some_namePairs_src _ _ ub hub (s, n) hqub with h1 | h1
    · rw [fromSheet_some_namePairs] at h1
      rcases (namePairs_mem_iff _ s n).mp h1 with ⟨pu, hpu, hpun⟩
      rcases (sub_pairMem L (L.and D) s pu).mp hpu with ⟨hpuL, hpuF⟩
      have heq : pb = pu :=
        nodup_nameProj_inj L hL s pb pu hpbL hpuL (hpbn.trans hpun.symm)
      rw [← heq] at hpuF
      have hbt : CssData.hasProperty (L.and D) s pb true = true :=
        (hasProperty_true_iff _ s pb).mpr hpb
      rw [hbt] at hpuF
      cases hpuF
    · rw [fromSheet_some_namePairs] at h1
      rcases (namePairs_mem_iff _ s n).mp h1 with ⟨pu, hpu, hpun⟩
      rcases (sub_pairMem D (L.and D) s pu).mp hpu with ⟨hpuD, hpuF⟩
      have hpbD' : pairMem D s pb := (hasProperty_true_iff D s pb).mp hpbD
      have heq : pb = pu :=
        nodup_nameProj_inj D hD s pb pu hpbD' hpuD (hpbn.trans hpun.symm)
      rw [← heq] at hpuF
      have hbt : CssData.hasProperty (L.and D) s pb true = true :=
        (hasProperty_true_iff _ s pb).mpr hpb
      rw [hbt] at hpuF
      cases hpuF
  obtain ⟨c, hc⟩ := Option.ne_none_iff_exists'.mp hor
  rw [hc]
  rfl

/-- Concrete duplicate-free parser inputs for the claim C1 witness. -/
def lightCleanCss : String := ".a \x7bcolor: red\x7d"

def darkCleanCss : String := ".a \x7bcolor: blue\x7d"

theorem step7_union_conflict_free_witness :
    (combineThemes (CssParser.parse lightCleanCss)
      (CssParser.parse darkCleanCss)).isSome = true :=
  step7_union_conflict_free (CssParser.parse lightCleanCss)
    (CssParser.parse darkCleanCss) (by decide) (by decide)

/-- Sheet with one rule, used to exercise the serializers at a missing
prefix. -/
def sheetC3 : CssData := ⟨[⟨[⟨".a"⟩], [⟨"color", "red"⟩]⟩]⟩

/-- Claim C3 (code bug evidence): requesting templated serialization from
`output_sheet` with `as_template` set, no `template_values` and no prefix
does NOT raise — the guard tests `template_values is not None` instead of
`as_template`, so the call returns CSS with the literal text `None` baked
into the variable names, contradicting the documented requirement that a
prefix must be supplied whenever `as_template` is enabled.  `output_vars`
does raise as specified. -/
theorem outputSheet_missing_prefix_no_raise :
    outputSheet sheetC3 none true none =
        some ".a \x7b color: var(--None-a-color) \x7d\n" ∧
      outputVars sheetC3 none none = none := by
  constructor
  · rfl
  · rfl

/-- Claim C9: the generated custom-property name is exactly
`--{prefix}-{selector names joined by '-', leading dots stripped}-{name}`,
and the reference form is exactly that name wrapped in `var(...)`. -/
theorem varName_format (pfx : String) (sels : List CssSelector)
    (propName : String) :
    varName (some pfx) (selectorsNameCombined sels) propName false =
        specCustomPropertyName pfx sels propName ∧
      varName (some pfx) (selectorsNameCombined sels) propName true =
        "var(" ++ specCustomPropertyName pfx sels propName ++ ")" :=
  ⟨rfl, rfl⟩

/-- Claim C10: `has_property` scans every rule of the sheet, not only the
first with a matching selector list: it returns true iff some rule whose
selector list equals the query contains a property with the queried name
(and, when `compare_value` is set, an equal value). -/
theorem hasProperty_scans_all_rules (d : CssData) (sels : List CssSelector)
    (p : CssProperty) (cv : Bool) :
    CssData.hasProperty d sels p cv = true ↔
      ∃ r, r ∈ d.rules ∧ r.selectors = sels ∧
        ∃ q, q ∈ r.properties ∧ q.name = p.name ∧
          (cv = true → q.value = p.value) := by
  unfold CssData.hasProperty
  simp only [List.any_eq_true, Bool.and_eq_true, beq_iff_eq]
  constructor
  · rintro ⟨r, hr, hsel, q, hq, hname, hval⟩
    refine ⟨r, hr, hsel, q, hq, hname, ?_⟩
    intro hcv
    subst hcv
    simpa using hval
  · rintro ⟨r, hr, hsel, q, hq, hname, hval⟩
    refine ⟨r, hr, hsel, q, hq, hname, ?_⟩
    cases cv with
    | false => simp
    | true => simp [hval rfl]

theorem mk_eq_empty_iff (l : List Char) : String.mk l = "" ↔ l = [] := by
  constructor
  · intro h
    have h2 := congrArg String.data h
    simpa using h2
  · rintro rfl
    rfl

theorem applyStep_rules_le (cfg : CssParser) (c : Char) (cn : Option Char) :
    ((applyStep cfg c cn).1).newSheet.rules.length ≤
      cfg.newSheet.rules.length + (if c = '}' then 1 else 0) := by
  obtain ⟨st, sheet, selName, sels, props, pn, pv⟩ := cfg
  cases st <;>
    simp only [applyStep, CssParser.cssSelectorNameGrow,
      CssParser.cssSelectorFinish, CssParser.cssPropertyNameGrow,
      CssParser.cssPropertyValueGrow, CssParser.cssPropertyReset,
      CssParser.cssPropertyFinish, CssParser.cssRuleFinish] <;>
    split_ifs <;>
    simp_all

theorem count_cons2_ge (c cn : Char) (l : List Char) :
    List.count '}' l + (if c = '}' then 1 else 0) ≤
      List.count '}' (c :: cn :: l) := by
  rw [List.count_cons, List.count_cons]
  by_cases hc : c = '}' <;> by_cases hcn : cn = '}' <;>
    simp [hc, hcn, beq_iff_eq]

theorem count_cons1_ge (c : Char) (l : List Char) :
    List.count '}' l + (if c = '}' then 1 else 0) ≤
      List.count '}' (c :: l) := by
  rw [List.count_cons]
  by_cases hc : c = '}' <;> simp [hc, beq_iff_eq]

theorem processChars_rules_le (cfg : CssParser) (l : List Char) :
    (processChars cfg l).newSheet.rules.length ≤
      cfg.newSheet.rules.length + l.count '}' := by
  induction cfg, l using processChars.induct with
  | case1 cfg =>
    simp [processChars]
  | case2 cfg c =>
    have h := applyStep_rules_le cfg c none
    simp only [processChars, List.count_cons, List.count_nil]
    by_cases hc : c = '}' <;> simp_all [beq_iff_eq]
  | case3 cfg c cn rest step hskip ih =>
    have hstep : step = applyStep cfg c (some cn) := rfl
    rw [hstep] at hskip ih
    simp only [processChars]
    rw [if_pos hskip]
    have h1 := applyStep_rules_le cfg c (some cn)
    have h2 := count_cons2_ge c cn rest
    by_cases hc : c = '}'
    · subst hc
      simp only [reduceIte] at h1 h2
      omega
    · simp only [if_neg hc] at h1 h2
      omega
  | case4 cfg c cn rest step hskip ih =>
    have hstep : step = applyStep cfg c (some cn) := rfl
    rw [hstep] at hskip ih
    simp only [processChars]
    rw [if_neg hskip]
    have h1 := applyStep_rules_le cfg c (some cn)
    have h2 := count_cons1_ge c (cn :: rest)
    by_cases hc : c = '}'
    · subst hc
      simp only [reduceIte] at h1 h2
      omega
    · simp only [if_neg hc] at h1 h2
      omega

/-- Invariant carried through the parse loop: no finished property, whether
already inside the sheet or still pending in the current rule, has an empty
name. -/
def cfgGood (cfg : CssParser) : Prop :=
  propNamesNonempty cfg.newSheet = true ∧
    cfg.properties.all (fun p => !(p.name == "")) = true

theorem applyStep_good (cfg : CssParser) (c : Char) (cn : Option Char)
    (h : cfgGood cfg) : cfgGood (applyStep cfg c cn).1 := by
  obtain ⟨st, sheet, selName, sels, props, pn, pv⟩ := cfg
  obtain ⟨h1, h2⟩ := h
  cases st <;>
    simp only [applyStep, CssParser.cssSelectorNameGrow,
      CssParser.cssSelectorFinish, CssParser.cssPropertyNameGrow,
      CssParser.cssPropertyValueGrow, CssParser.cssPropertyReset,
      CssParser.cssPropertyFinish, CssParser.cssRuleFinish] <;>
    split_ifs <;>
    simp_all [cfgGood, propNamesNonempty, List.all_append, mk_eq_empty_iff] <;>
    exact h1

theorem processChars_good (cfg : CssParser) (l : List Char)
    (h : cfgGood cfg) : cfgGood (processChars cfg l) := by
  induction cfg, l using processChars.induct with
  | case1 cfg => exact h
  | case2 cfg c => exact applyStep_good cfg c none h
  | case3 cfg c cn rest step hskip ih =>
    have hstep : step = applyStep cfg c (some cn) := rfl
    rw [hstep] at hskip ih
    simp only [processChars]
    rw [if_pos hskip]
    exact ih (applyStep_good cfg c (some cn) h)
  | case4 cfg c cn rest step hskip ih =>
    have hstep : step = applyStep cfg c (some cn) := rfl
    rw [hstep] at hskip ih
    simp only [processChars]
    rw [if_neg hskip]
    exact ih (applyStep_good cfg c (some cn) h)

/-- Claim C7: the parser is a total function (no exception exists in the
embedding) returning a best-effort sheet: every emitted rule was closed by a
`}` read from the input (so an in-flight rule at end-of-input is dropped,
giving the length bound), and no emitted property has an empty name (blank
property names are silently discarded). -/
theorem parser_total_best_effort (s : String) :
    (CssParser.parse s).rules.length ≤ s.data.count '}' ∧
      propNamesNonempty (CssParser.parse s) = true := by
  have hgood : cfgGood initParser := by
    constructor <;> rfl
  have h1 := processChars_rules_le initParser s.data
  have h2 := processChars_good initParser s.data hgood
  unfold CssParser.parse
  exact ⟨by simpa [initParser] using h1, h2.1⟩

/-- Claim C8: in state `BLOCK_PROP_VALUE`, reading `}` behaves exactly like
reading `;}`: the pending property is finished (trailing whitespace stripped
from its value), appended to the pending rule, and the rule is emitted — a
property without a terminating `;` before `}` is not lost. -/
theorem unterminated_property_captured (cfg : CssParser)
    (hstate : cfg.state = CssParserState.BLOCK_PROP_VALUE)
    (hname : cfg.propName ≠ []) :
    processChars cfg ['}'] = processChars cfg [';', '}'] ∧
      (processChars cfg ['}']).newSheet.rules =
        cfg.newSheet.rules ++
          [⟨cfg.selectors, cfg.properties ++
            [⟨String.mk cfg.propName, String.mk (rstrip cfg.propValue)⟩]⟩] := by
  obtain ⟨st, sheet, selName, sels, props, pn, pv⟩ := cfg
  simp only at hstate hname
  subst hstate
  constructor
  · simp [processChars, applyStep, CssParser.cssPropertyFinish,
      CssParser.cssRuleFinish, CssParser.cssPropertyReset, hname]
  · simp [processChars, applyStep, CssParser.cssPropertyFinish,
      CssParser.cssRuleFinish, CssParser.cssPropertyReset, hname]

/-- Concrete parser configuration for the claim C8 witness: mid-value in
`.a { color: red ` with no terminating semicolon. -/
def cfgC8 : CssParser :=
  ⟨CssParserState.BLOCK_PROP_VALUE, ⟨[]⟩, [], [⟨".a"⟩], [],
    "color".data, "red ".data⟩

theorem unterminated_property_captured_witness :
    processChars cfgC8 ['}'] = processChars cfgC8 [';', '}'] ∧
      (processChars cfgC8 ['}']).newSheet.rules =
        cfgC8.newSheet.rules ++
          [⟨cfgC8.selectors, cfgC8.properties ++
            [⟨String.mk cfgC8.propName, String.mk (rstrip cfgC8.propValue)⟩]⟩] :=
  unterminated_property_captured cfgC8 rfl (by decide)
